import Mathlib

/-!
Verification of the OKR dashboard (`app.py`): data loader, aggregation and
chart builders, and the view controller of the Streamlit entry point.
Records are modelled as a structure, the pandas data frame as a list of
records, and numeric means as rational numbers.
-/

/-- A raw CSV row of `index_goals.csv`, before `load_data` appends the
derived `status_label` column. -/
structure RawRecord where
  goal : Int
  objective : Int
  okr : String
  status : Int
  deriving Repr, DecidableEq

/-- A row of the loaded data frame `df`, after `load_data` appends
`status_label`.  A missing label (pandas `NaN`, produced by `Series.map`
on a key absent from the dictionary) is `none`. -/
structure Record where
  goal : Int
  objective : Int
  okr : String
  status : Int
  status_label : Option String
  deriving Repr, DecidableEq

/-- The `status_mapping` dictionary of `load_data`: `Series.map` on a
dictionary yields the value at the key, and `NaN` (here `none`) when the
key is absent. -/
def status_mapping (s : Int) : Option String :=
  if s = 0 then some "Not Started"
  else if s = 1 then some "Planned"
  else if s = 2 then some "Ongoing"
  else if s = 3 then some "Optimizing"
  else if s = 4 then some "Completed"
  else none

/-- `load_data` after the CSV has been parsed into raw rows: appends the
`status_label` column by mapping `status_mapping` over the `status`
column, leaving every other column unchanged. -/
def load_data (src : List RawRecord) : List Record :=
  src.map (fun r => ⟨r.goal, r.objective, r.okr, r.status, status_mapping r.status⟩)

/-- pandas `Series.unique`: the distinct values in order of first
appearance. -/
def uniqueFirst {α : Type} [DecidableEq α] : List α → List α
  | [] => []
  | a :: l => a :: uniqueFirst (l.filter (fun x => x ≠ a))
termination_by l => l.length
decreasing_by
  simpa using Nat.lt_succ_of_le (List.length_filter_le _ _)

/-- Insert into a sorted list, before the first element not below the new
one; the building block of the stable sort `insSort`. -/
def insertLE {α : Type} (le : α → α → Bool) (a : α) : List α → List α
  | [] => [a]
  | b :: l => if le a b then a :: b :: l else b :: insertLE le a l

/-- A stable sort by the boolean relation `le`.  pandas sorts by several
keys (`DataFrame.sort_values` with a list of columns, and `sorted` on
goal numbers) with a stable lexicographic sort; a stable sort by a total
preorder is unique, so insertion sort produces the same list. -/
def insSort {α : Type} (le : α → α → Bool) : List α → List α
  | [] => []
  | a :: l => insertLE le a (insSort le l)

/-- Ascending sort of integers, as `sorted` in the goal selectbox. -/
def sortAsc (l : List Int) : List Int :=
  insSort (fun a b => decide (a ≤ b)) l

/-- The mean of a list of integers as a rational number
(`Series.mean`), with the empty mean falling to `0` (never reached on
the grouped, hence non-empty, record sets of the dashboard). -/
def meanQ (xs : List Int) : ℚ :=
  (xs.sum : ℚ) / (xs.length : ℚ)

/-- The `goals_progress` data of the Overview page (lines 123-124 of
`app.py`): group the table by `goal` (pandas sorts the group keys
ascending), take the mean `status` of each group, and turn it into a
completion percentage by `/ 4 * 100`. -/
def goalsOverview (df : List Record) : List (Int × ℚ) :=
  (sortAsc (uniqueFirst (df.map (fun r => r.goal)))).map
    (fun g => (g, meanQ (((df.filter (fun r => r.goal = g)).map (fun r => r.status))) / 4 * 100))

/-- The status-distribution pie data: one slice per distinct
`status_label`, counting the records carrying it. -/
def statusDistribution (df : List Record) : List (Option String × Nat) :=
  (uniqueFirst (df.map (fun r => r.status_label))).map
    (fun lab => (lab, (df.filter (fun r => r.status_label = lab)).length))

/-- The objective axes of `create_radar_plot`:
`goal_data.objective.unique()`, the distinct objectives of the records
with the given goal, in order of first appearance. -/
def radarObjectives (df : List Record) (goal_number : Int) : List Int :=
  uniqueFirst ((df.filter (fun r => r.goal = goal_number)).map (fun r => r.objective))

/-- The data series of `create_radar_plot`: for each objective axis, the
normalized progress `obj_data.status.mean() / 4` and the number
`len(obj_data)` of OKRs, in axis order. -/
def create_radar_data (df : List Record) (goal_number : Int) : List (Int × ℚ × Nat) :=
  (radarObjectives df goal_number).map (fun obj =>
    let obj_data := (df.filter (fun r => r.goal = goal_number)).filter
      (fun r => r.objective = obj)
    (obj, meanQ (obj_data.map (fun r => r.status)) / 4, obj_data.length))

/-- The data series of `create_okr_progress_chart`: the records with the
given goal, as `(okr, status, objective)` bar entries in row order. -/
def okrDetail (df : List Record) (goal_number : Int) : List (String × Int × Int) :=
  (df.filter (fun r => r.goal = goal_number)).map
    (fun r => (r.okr, r.status, r.objective))

/-- The sort key of the goal-details table: the `(objective, okr)`
columns of a projected row. -/
def rowKey (r : Int × String × Option String) : Int × String :=
  (r.1, r.2.1)

/-- Python's string ordering on the underlying character lists: strict
lexicographic comparison by code point, the order pandas applies to the
`okr` column. -/
def charsLT : List Char → List Char → Bool
  | _, [] => false
  | [], _ :: _ => true
  | a :: s, b :: t =>
      if a = b then charsLT s t else decide (a.val.toNat < b.val.toNat)

/-- Python's `<` on strings. -/
def strLT (x y : String) : Bool :=
  charsLT x.data y.data

/-- Python's `<=` on strings, the complement of the reversed strict
order. -/
def strLE (x y : String) : Bool :=
  !(strLT y x)

/-- Lexicographic non-strict comparison on `(objective, okr)` keys, the
order used by `sort_values(["objective", "okr"])`. -/
def keyLE (x y : Int × String) : Bool :=
  decide (x.1 < y.1) || (decide (x.1 = y.1) && strLE x.2 y.2)

/-- Lexicographic strict order on `(objective, okr)` keys. -/
def keyLT (x y : Int × String) : Prop :=
  x.1 < y.1 ∨ (x.1 = y.1 ∧ strLT x.2 y.2 = true)

instance (x y : Int × String) : Decidable (keyLT x y) := by
  unfold keyLT; infer_instance

/-- The `goal_details` table (line 167 of `app.py`): the records with
the selected goal, projected to `(objective, okr, status_label)` and
sorted by `(objective, okr)` with pandas' stable multi-column sort. -/
def goal_details (df : List Record) (g : Int) : List (Int × String × Option String) :=
  insSort (fun x y => keyLE (rowKey x) (rowKey y))
    ((df.filter (fun r => r.goal = g)).map (fun r => (r.objective, r.okr, r.status_label)))

/-- The options of the `Select Goal` selectbox in the Goal Details view:
`sorted(df.goal.unique())`. -/
def goalOptions (df : List Record) : List Int :=
  sortAsc (uniqueFirst (df.map (fun r => r.goal)))

/-- The claim's phrasing of the radar axis order: the distinct
objectives accumulated left to right over the rows, each kept at its
first occurrence.  Stated independently of `uniqueFirst` so that the
two formulations can be compared. -/
def distinctInRowOrder (l : List Int) : List Int :=
  l.foldl (fun acc o => if o ∈ acc then acc else acc ++ [o]) []

/-- The two navigation states of the sidebar radio button. -/
inductive ViewType where
  | overview
  | goalDetails
  deriving Repr, DecidableEq

/-- What the entry point puts on screen: either the single blocking
error page (`st.error` followed by `st.stop`), or the Overview page
(three summary metrics, goals bar chart, status pie chart), or the Goal
Details page (radar chart, per-OKR bar chart, details table). -/
inductive AppOutput where
  | errorPage (message : String)
  | overviewPage (totalGoals totalOkrs : Nat) (avgCompletion : ℚ)
      (goalsChart : List (Int × ℚ)) (statusChart : List (Option String × Nat))
  | detailPage (selectedGoal : Option Int) (radar : List (Int × ℚ × Nat))
      (okrChart : List (String × Int × Int))
      (detailTable : List (Int × String × Option String))
  deriving DecidableEq

/-- The `main` function of `app.py` (named `app_main` here because Lean
reserves `main`).  `loadResult` is the outcome of
`load_data()` inside the `try` block: on any exception the except
branch shows one error message and `st.stop()` halts, so nothing else
is rendered.  `goalChoice` is the index the user picks in the goal
selectbox (out-of-range or untouched means the default, index 0); an
empty option list makes the selectbox yield no selection. -/
def app_main (loadResult : Except String (List Record)) (view : ViewType)
    (goalChoice : Nat) : AppOutput :=
  match loadResult with
  | .error _ =>
      .errorPage "Error loading data. Please ensure \x27index_goals.csv\x27 is in the same directory."
  | .ok df =>
    match view with
    | .overview =>
        .overviewPage (uniqueFirst (df.map (fun r => r.goal))).length df.length
          (meanQ (df.map (fun r => r.status)) / 4 * 100)
          (goalsOverview df) (statusDistribution df)
    | .goalDetails =>
        let opts := goalOptions df
        match opts.get? (if goalChoice < opts.length then goalChoice else 0) with
        | none => .detailPage none [] [] []
        | some g =>
            .detailPage (some g) (create_radar_data df g) (okrDetail df g)
              (goal_details df g)

/-- The session-wide cache attached to `load_data`: either empty or
holding the table of a previous call. -/
structure CacheState where
  cached : Option (List Record)
  deriving DecidableEq

/-- Modelled from the spec: the `st.cache_data` decorator on
`load_data` (the caching machinery itself lives in the Streamlit
library, not in this repository).  Per the spec, the result is cached
process-wide and repeated calls return the same table without
re-reading the source.  The boolean reports whether this call read and
parsed the source file. -/
def cached_load_data (src : List RawRecord) (s : CacheState) :
    List Record × CacheState × Bool :=
  match s.cached with
  | some t => (t, s, false)
  | none => (load_data src, ⟨some (load_data src)⟩, true)

/-! Helper lemmas about `uniqueFirst`, `insSort` and `meanQ`. -/

theorem mem_uniqueFirst {α : Type} [DecidableEq α] (l : List α) (x : α) :
    x ∈ uniqueFirst l ↔ x ∈ l := by
  induction l using uniqueFirst.induct with
  | case1 => simp [uniqueFirst]
  | case2 a l ih =>
    simp only [uniqueFirst, List.mem_cons, ih, List.mem_filter, decide_eq_true_eq]
    by_cases h : x = a <;> simp [h]

theorem uniqueFirst_nodup {α : Type} [DecidableEq α] (l : List α) :
    (uniqueFirst l).Nodup := by
  induction l using uniqueFirst.induct with
  | case1 => simp [uniqueFirst]
  | case2 a l ih =>
    simp only [uniqueFirst, List.nodup_cons]
    refine ⟨?_, ih⟩
    intro hmem
    have := (mem_uniqueFirst _ _).mp hmem
    simp at this

theorem foldl_distinct (l : List Int) : ∀ acc : List Int,
    l.foldl (fun acc o => if o ∈ acc then acc else acc ++ [o]) acc
      = acc ++ uniqueFirst (l.filter (fun x => x ∉ acc)) := by
  induction l with
  | nil => intro acc; simp [uniqueFirst]
  | cons o l ih =>
    intro acc
    by_cases h : o ∈ acc
    · simp only [List.foldl_cons, if_pos h]
      rw [show List.filter (fun x => decide (x ∉ acc)) (o :: l)
            = List.filter (fun x => decide (x ∉ acc)) l from by simp [h]]
      exact ih acc
    · simp only [List.foldl_cons, if_neg h]
      rw [show List.filter (fun x => decide (x ∉ acc)) (o :: l)
            = o :: List.filter (fun x => decide (x ∉ acc)) l from by simp [h]]
      rw [ih (acc ++ [o])]
      have hf : l.filter (fun x => decide (x ∉ acc ++ [o]))
          = (l.filter (fun x => decide (x ∉ acc))).filter (fun x => decide (x ≠ o)) := by
        rw [List.filter_filter]
        apply List.filter_congr
        intro x hx
        by_cases h1 : x ∈ acc <;> by_cases h2 : x = o <;>
          simp [h1, h2, List.mem_append]
      rw [hf]
      simp [uniqueFirst]

theorem distinctInRowOrder_eq_uniqueFirst (l : List Int) :
    distinctInRowOrder l = uniqueFirst l := by
  have h := foldl_distinct l []
  simpa [distinctInRowOrder] using h

theorem insertLE_perm {α : Type} (le : α → α → Bool) (a : α) (s : List α) :
    List.Perm (insertLE le a s) (a :: s) := by
  induction s with
  | nil => exact List.Perm.refl _
  | cons b l ih =>
    simp only [insertLE]
    by_cases h : le a b
    · rw [if_pos h]
    · rw [if_neg h]
      exact (ih.cons b).trans (List.Perm.swap a b l)

theorem insSort_perm {α : Type} (le : α → α → Bool) (s : List α) :
    List.Perm (insSort le s) s := by
  induction s with
  | nil => exact List.Perm.refl _
  | cons a l ih =>
    exact (insertLE_perm le a (insSort le l)).trans (ih.cons a)

theorem mem_insSort {α : Type} (le : α → α → Bool) (s : List α) (x : α) :
    x ∈ insSort le s ↔ x ∈ s :=
  (insSort_perm le s).mem_iff

theorem insertLE_decomp {α : Type} (le : α → α → Bool) (a : α) (s : List α) :
    ∃ s1 s2, s = s1 ++ s2 ∧ insertLE le a s = s1 ++ a :: s2
      ∧ ∀ b ∈ s1, le a b = false := by
  induction s with
  | nil => exact ⟨[], [], rfl, rfl, by simp⟩
  | cons b l ih =>
    by_cases h : le a b
    · exact ⟨[], b :: l, rfl, by simp [insertLE, h], by simp⟩
    · obtain ⟨s1, s2, h1, h2, h3⟩ := ih
      refine ⟨b :: s1, s2, by simp [h1], by simp [insertLE, h, h2], ?_⟩
      intro x hx
      rcases List.mem_cons.mp hx with hx | hx
      · subst hx; exact Bool.eq_false_iff.mpr h
      · exact h3 x hx

theorem pairwise_insertLE {α : Type} (le : α → α → Bool)
    (htot : ∀ x y, le x y = true ∨ le y x = true)
    (htrans : ∀ x y z, le x y = true → le y z = true → le x z = true)
    (a : α) (s : List α) (hs : s.Pairwise (fun x y => le x y = true)) :
    (insertLE le a s).Pairwise (fun x y => le x y = true) := by
  induction s with
  | nil => simp [insertLE]
  | cons b l ih =>
    rcases List.pairwise_cons.mp hs with ⟨hb, hl⟩
    by_cases h : le a b = true
    · simp only [insertLE, h, if_true]
      refine List.pairwise_cons.mpr ⟨?_, hs⟩
      intro x hx
      rcases List.mem_cons.mp hx with hx | hx
      · subst hx; exact h
      · exact htrans a b x h (hb x hx)
    · have h2 : le b a = true := (htot a b).resolve_left h
      have : le a b = false := Bool.eq_false_iff.mpr h
      simp only [insertLE, this, Bool.false_eq_true, if_false]
      refine List.pairwise_cons.mpr ⟨?_, ih hl⟩
      intro x hx
      rcases (insertLE_perm le a l).mem_iff.mp hx with hx2
      rcases List.mem_cons.mp hx2 with hx3 | hx3
      · subst hx3; exact h2
      · exact hb x hx3

theorem pairwise_insSort {α : Type} (le : α → α → Bool)
    (htot : ∀ x y, le x y = true ∨ le y x = true)
    (htrans : ∀ x y z, le x y = true → le y z = true → le x z = true)
    (s : List α) :
    (insSort le s).Pairwise (fun x y => le x y = true) := by
  induction s with
  | nil => simp [insSort]
  | cons a l ih => exact pairwise_insertLE le htot htrans a (insSort le l) ih

theorem insSort_filter_key {α κ : Type} [DecidableEq κ] (key : α → κ)
    (kle : κ → κ → Bool) (hrefl : ∀ t, kle t t = true) (l : List α) (k : κ) :
    (insSort (fun x y => kle (key x) (key y)) l).filter (fun x => decide (key x = k))
      = l.filter (fun x => decide (key x = k)) := by
  induction l with
  | nil => rfl
  | cons a l ih =>
    obtain ⟨s1, s2, hsplit, hins, hfalse⟩ :=
      insertLE_decomp (fun x y => kle (key x) (key y)) a
        (insSort (fun x y => kle (key x) (key y)) l)
    have hs12 : (s1 ++ s2).filter (fun x => decide (key x = k))
        = l.filter (fun x => decide (key x = k)) := by
      rw [← hsplit]; exact ih
    by_cases hk : key a = k
    · have hs1 : s1.filter (fun x => decide (key x = k)) = [] := by
        rw [List.filter_eq_nil_iff]
        intro b hb
        simp only [decide_eq_true_eq]
        intro hbk
        have : kle (key a) (key b) = true := by rw [hk, hbk]; exact hrefl k
        rw [hfalse b hb] at this
        exact Bool.false_ne_true this
      have hs1b : s1.filter (fun x => decide (key x = k)) ++ s2.filter (fun x => decide (key x = k))
          = l.filter (fun x => decide (key x = k)) := by
        rw [← List.filter_append]; exact hs12
      rw [hs1] at hs1b
      simp only [List.nil_append] at hs1b
      show (insertLE _ a _).filter _ = _
      rw [hins, List.filter_append, hs1]
      simp [List.filter_cons, hk, hs1b]
    · show (insertLE _ a _).filter _ = _
      have hfa : List.filter (fun x => decide (key x = k)) (a :: s2)
          = List.filter (fun x => decide (key x = k)) s2 := by simp [hk]
      rw [hins, List.filter_append, hfa, ← List.filter_append, hs12]
      simp [List.filter_cons, hk]

theorem charsLT_irrefl (s : List Char) : charsLT s s = false := by
  induction s with
  | nil => rfl
  | cons a t ih => simp [charsLT, ih]

theorem charsLT_asymm : ∀ s t : List Char,
    charsLT s t = true → charsLT t s = true → False := by
  intro s
  induction s with
  | nil =>
    intro t h1 h2
    cases t with
    | nil => simp [charsLT] at h1
    | cons b t => simp [charsLT] at h2
  | cons a s ih =>
    intro t h1 h2
    cases t with
    | nil => simp [charsLT] at h1
    | cons b t =>
      simp only [charsLT] at h1 h2
      by_cases hab : a = b
      · subst hab
        rw [if_pos rfl] at h1 h2
        exact ih t h1 h2
      · have hba : ¬ b = a := fun h => hab h.symm
        rw [if_neg hab] at h1
        rw [if_neg hba] at h2
        simp only [decide_eq_true_eq] at h1 h2
        omega

theorem charsLT_conn : ∀ s t : List Char,
    charsLT s t = false → charsLT t s = false → s = t := by
  intro s
  induction s with
  | nil =>
    intro t h1 h2
    cases t with
    | nil => rfl
    | cons b t => simp [charsLT] at h1
  | cons a s ih =>
    intro t h1 h2
    cases t with
    | nil => simp [charsLT] at h2
    | cons b t =>
      simp only [charsLT] at h1 h2
      by_cases hab : a = b
      · subst hab
        rw [if_pos rfl] at h1 h2
        rw [ih t h1 h2]
      · have hba : ¬ b = a := fun h => hab h.symm
        rw [if_neg hab] at h1
        rw [if_neg hba] at h2
        simp only [decide_eq_false_iff_not, Nat.not_lt] at h1 h2
        exact absurd (Char.ext (UInt32.ext (by omega))) hab

theorem charsLT_trans : ∀ s t u : List Char,
    charsLT s t = true → charsLT t u = true → charsLT s u = true := by
  intro s
  induction s with
  | nil =>
    intro t u h1 h2
    cases u with
    | nil =>
      cases t with
      | nil => simp [charsLT] at h1
      | cons b t => simp [charsLT] at h2
    | cons c u => simp [charsLT]
  | cons a s ih =>
    intro t u h1 h2
    cases t with
    | nil => simp [charsLT] at h1
    | cons b t =>
      cases u with
      | nil => simp [charsLT] at h2
      | cons c u =>
        simp only [charsLT] at h1 h2 ⊢
        by_cases hab : a = b
        · subst hab
          rw [if_pos rfl] at h1
          by_cases hac : a = c
          · subst hac
            rw [if_pos rfl] at h2 ⊢
            exact ih t u h1 h2
          · rw [if_neg hac] at h2 ⊢
            exact h2
        · rw [if_neg hab] at h1
          by_cases hbc : b = c
          · subst hbc
            rw [if_pos rfl] at h2
            rw [if_neg hab]
            exact h1
          · rw [if_neg hbc] at h2
            simp only [decide_eq_true_eq] at h1 h2
            by_cases hac : a = c
            · exfalso
              subst hac
              omega
            · rw [if_neg hac]
              simp only [decide_eq_true_eq]
              omega

theorem keyLE_refl (x : Int × String) : keyLE x x = true := by
  simp [keyLE, strLE, strLT, charsLT_irrefl]

theorem keyLE_total (x y : Int × String) : keyLE x y = true ∨ keyLE y x = true := by
  rcases lt_trichotomy x.1 y.1 with h | h | h
  · left; simp [keyLE, h]
  · by_cases h2 : charsLT (String.data y.2) (String.data x.2) = true
    · right
      have h3 : charsLT (String.data x.2) (String.data y.2) = false := by
        cases h4 : charsLT (String.data x.2) (String.data y.2)
        · rfl
        · exact (charsLT_asymm _ _ h4 h2).elim
      simp [keyLE, strLE, strLT, h.symm, h3]
    · left
      have h2f : charsLT (String.data y.2) (String.data x.2) = false :=
        Bool.eq_false_iff.mpr h2
      simp [keyLE, strLE, strLT, h, h2f]
  · right; simp [keyLE, h]

theorem keyLE_trans (x y z : Int × String) :
    keyLE x y = true → keyLE y z = true → keyLE x z = true := by
  simp only [keyLE, strLE, strLT, Bool.or_eq_true, Bool.and_eq_true,
    decide_eq_true_eq, Bool.not_eq_true']
  rintro (h1 | ⟨h1, h1b⟩) (h2 | ⟨h2, h2b⟩)
  · left; omega
  · left; omega
  · left; omega
  · right
    refine ⟨h1.trans h2, ?_⟩
    cases hzx : charsLT (String.data z.2) (String.data x.2)
    · rfl
    · exfalso
      cases hyz : charsLT (String.data y.2) (String.data z.2)
      · have hd : String.data y.2 = String.data z.2 := charsLT_conn _ _ hyz h2b
        rw [hd] at h1b
        rw [h1b] at hzx
        exact Bool.false_ne_true hzx
      · have := charsLT_trans _ _ _ hyz hzx
        rw [h1b] at this
        exact Bool.false_ne_true this

theorem keyLE_ne_lt (x y : Int × String) :
    keyLE x y = true → x ≠ y → keyLT x y := by
  simp only [keyLE, keyLT, strLE, strLT, Bool.or_eq_true, Bool.and_eq_true,
    decide_eq_true_eq, Bool.not_eq_true']
  rintro (h | ⟨h1, h2⟩) hne
  · left; exact h
  · cases hxy : charsLT (String.data x.2) (String.data y.2)
    · exfalso
      have hdata : String.data x.2 = String.data y.2 := charsLT_conn _ _ hxy h2
      exact hne (Prod.ext h1 (String.ext hdata))
    · right
      exact ⟨h1, rfl⟩

theorem sum_of_const (c : Int) (xs : List Int) (hall : ∀ x ∈ xs, x = c) :
    xs.sum = c * xs.length := by
  induction xs with
  | nil => simp
  | cons a l ih =>
    have ha : a = c := hall a (List.mem_cons_self a l)
    have hl : ∀ x ∈ l, x = c := fun x hx => hall x (List.mem_cons_of_mem a hx)
    simp [ha, ih hl]
    ring

theorem meanQ_const (xs : List Int) (c : Int) (h : xs ≠ [])
    (hall : ∀ x ∈ xs, x = c) : meanQ xs = (c : ℚ) := by
  have hlen : (xs.length : ℚ) ≠ 0 := by
    have h0 : xs.length ≠ 0 := by
      simpa [List.length_eq_zero] using h
    exact_mod_cast h0
  have hsum := sum_of_const c xs hall
  rw [meanQ, hsum]
  push_cast
  field_simp

/-! Claim theorems. -/

/-- C2: For every status value s in {0,1,2,3,4}, the status-to-label
mapping applied during load returns exactly the fixed corresponding
label: 0 to Not Started, 1 to Planned, 2 to Ongoing, 3 to Optimizing
and 4 to Completed. -/
theorem c2_status_mapping_labels :
    status_mapping 0 = some "Not Started" ∧ status_mapping 1 = some "Planned"
    ∧ status_mapping 2 = some "Ongoing" ∧ status_mapping 3 = some "Optimizing"
    ∧ status_mapping 4 = some "Completed" := by
  decide

/-- C6: If loading the data source fails, the entry point catches the
failure once at top level, shows the single blocking error message, and
attempts no further rendering: whatever the navigation state, the
output is exactly the error page. -/
theorem c6_load_failure_blocks (e : String) (view : ViewType) (goalChoice : Nat) :
    app_main (Except.error e) view goalChoice
      = AppOutput.errorPage
          "Error loading data. Please ensure \x27index_goals.csv\x27 is in the same directory." :=
  rfl

/-- C7: Within one session, a second call to the cached loader is a
cache hit: the first call reads the source, and the second call returns
exactly the table of the first call, leaves the cache untouched, and
does not read the source again. -/
theorem c7_cache_hit (src : List RawRecord) :
    (cached_load_data src ⟨none⟩).2.2 = true
    ∧ cached_load_data src (cached_load_data src ⟨none⟩).2.1
        = ((cached_load_data src ⟨none⟩).1, (cached_load_data src ⟨none⟩).2.1, false) :=
  ⟨rfl, rfl⟩

/-- C8: For every record whose status lies outside {0,1,2,3,4}, the
loader yields a missing status_label for that record while keeping all
other fields unchanged; no record is dropped and nothing fails. -/
theorem c8_out_of_range_label (src : List RawRecord) :
    (load_data src).length = src.length
    ∧ List.Forall₂ (fun (r : RawRecord) (o : Record) =>
        o.goal = r.goal ∧ o.objective = r.objective ∧ o.okr = r.okr
        ∧ o.status = r.status
        ∧ ((r.status < 0 ∨ 4 < r.status) → o.status_label = none))
      src (load_data src) := by
  constructor
  · simp [load_data]
  · simp only [load_data]
    induction src with
    | nil => exact List.Forall₂.nil
    | cons r l ih =>
      refine List.Forall₂.cons ⟨rfl, rfl, rfl, rfl, ?_⟩ ih
      intro hout
      simp only [status_mapping]
      split_ifs with h0 h1 h2 h3 h4
      · exact absurd hout (by omega)
      · exact absurd hout (by omega)
      · exact absurd hout (by omega)
      · exact absurd hout (by omega)
      · exact absurd hout (by omega)
      · rfl

/-- Witness for C8 at a concrete one-row table with status 7. -/
theorem c8_out_of_range_label_witness :
    List.Forall₂ (fun (r : RawRecord) (o : Record) =>
        o.goal = r.goal ∧ o.objective = r.objective ∧ o.okr = r.okr
        ∧ o.status = r.status
        ∧ ((r.status < 0 ∨ 4 < r.status) → o.status_label = none))
      [⟨1, 1, "A", 7⟩] (load_data [⟨1, 1, "A", 7⟩]) :=
  (c8_out_of_range_label [⟨1, 1, "A", 7⟩]).2

/-- C5: For every table and every goal value matching no record
(including the empty table), each aggregation and chart builder
produces an empty result rather than failing: the radar series, the
per-OKR bar series and the details table are all empty, and on the
empty table the goals overview and the status distribution are empty
as well. -/
theorem c5_empty_goal_empty_results (df : List Record) (g : Int)
    (h : ∀ r ∈ df, r.goal ≠ g) :
    create_radar_data df g = [] ∧ okrDetail df g = [] ∧ goal_details df g = []
    ∧ goalsOverview ([] : List Record) = []
    ∧ statusDistribution ([] : List Record) = [] := by
  have hfil : df.filter (fun r => decide (r.goal = g)) = [] := by
    rw [List.filter_eq_nil_iff]
    intro r hr
    simp [h r hr]
  refine ⟨?_, ?_, ?_, ?_, ?_⟩
  · simp [create_radar_data, radarObjectives, hfil, uniqueFirst]
  · simp [okrDetail, hfil]
  · simp [goal_details, hfil, insSort]
  · simp [goalsOverview, uniqueFirst, sortAsc, insSort]
  · simp [statusDistribution, uniqueFirst]

/-- Witness for C5 at a concrete one-row table and the absent goal 2. -/
theorem c5_empty_goal_empty_results_witness :
    create_radar_data (load_data [⟨1, 1, "A", 4⟩]) 2 = []
    ∧ okrDetail (load_data [⟨1, 1, "A", 4⟩]) 2 = []
    ∧ goal_details (load_data [⟨1, 1, "A", 4⟩]) 2 = []
    ∧ goalsOverview ([] : List Record) = []
    ∧ statusDistribution ([] : List Record) = [] :=
  c5_empty_goal_empty_results (load_data [⟨1, 1, "A", 4⟩]) 2 (by decide)

/-- C1: For every table and every goal present in it, the goals
overview has exactly one entry for that goal, whose completion
percentage is the mean of the status values of the records with that
goal, divided by 4, times 100; in particular a goal whose records are
all at status 4 gets 100 percent and a goal whose records are all at
status 0 gets 0 percent. -/
theorem c1_goals_overview_completion (df : List Record) (g : Int)
    (hg : ∃ r ∈ df, r.goal = g) :
    List.Nodup ((goalsOverview df).map Prod.fst)
    ∧ (g, meanQ ((df.filter (fun r => r.goal = g)).map (fun r => r.status)) / 4 * 100)
        ∈ goalsOverview df
    ∧ ((∀ r ∈ df.filter (fun r => r.goal = g), r.status = (4 : Int)) →
        meanQ ((df.filter (fun r => r.goal = g)).map (fun r => r.status)) / 4 * 100 = 100)
    ∧ ((∀ r ∈ df.filter (fun r => r.goal = g), r.status = (0 : Int)) →
        meanQ ((df.filter (fun r => r.goal = g)).map (fun r => r.status)) / 4 * 100 = 0) := by
  obtain ⟨r0, hr0, hgoal⟩ := hg
  have hr0f : r0 ∈ df.filter (fun r => r.goal = g) :=
    List.mem_filter.mpr ⟨hr0, by simp [hgoal]⟩
  have hfilne : df.filter (fun r => r.goal = g) ≠ [] := List.ne_nil_of_mem hr0f
  have hne : (df.filter (fun r => r.goal = g)).map (fun r => r.status) ≠ [] := by
    simpa using hfilne
  refine ⟨?_, ?_, ?_, ?_⟩
  · have hfst : (goalsOverview df).map Prod.fst
        = sortAsc (uniqueFirst (df.map (fun r => r.goal))) := by
      simp only [goalsOverview, List.map_map]
      exact List.map_id _
    rw [hfst, sortAsc]
    exact ((insSort_perm _ _).nodup_iff).mpr (uniqueFirst_nodup _)
  · have hmem : g ∈ sortAsc (uniqueFirst (df.map (fun r => r.goal))) := by
      rw [sortAsc, mem_insSort, mem_uniqueFirst]
      exact List.mem_map.mpr ⟨r0, hr0, hgoal⟩
    simp only [goalsOverview]
    exact List.mem_map_of_mem _ hmem
  · intro hall
    have h4 : meanQ ((df.filter (fun r => r.goal = g)).map (fun r => r.status)) = 4 := by
      apply meanQ_const _ 4 hne
      intro x hx
      obtain ⟨r, hr, hrx⟩ := List.mem_map.mp hx
      rw [← hrx]
      exact hall r hr
    rw [h4]
    norm_num
  · intro hall
    have h0 : meanQ ((df.filter (fun r => r.goal = g)).map (fun r => r.status)) = 0 := by
      apply meanQ_const _ 0 hne
      intro x hx
      obtain ⟨r, hr, hrx⟩ := List.mem_map.mp hx
      rw [← hrx]
      exact hall r hr
    rw [h0]
    norm_num

/-- Witness for C1: a one-row table at status 4 whose only goal reaches
100 percent in the goals overview. -/
theorem c1_goals_overview_completion_witness :
    ((1 : Int), (100 : ℚ)) ∈ goalsOverview (load_data [⟨1, 1, "A", 4⟩]) := by
  have h := c1_goals_overview_completion (load_data [⟨1, 1, "A", 4⟩]) 1
    ⟨⟨1, 1, "A", 4, some "Completed"⟩, by decide, rfl⟩
  have hm := h.2.1
  rw [h.2.2.1 (by decide)] at hm
  exact hm

/-- C3: For every table and goal, the radar builder produces, for each
entry, a normalized progress equal to the mean of the status values of
the records with that goal and that objective divided by 4, and a count
equal to the number of those records; on the two-record example table
with goal 1 it yields the single entry (1, 1/2, 2). -/
theorem c3_radar_per_objective :
    (∀ (df : List Record) (g o : Int) (p : ℚ) (c : Nat),
      (o, p, c) ∈ create_radar_data df g →
        p = meanQ (((df.filter (fun r => r.goal = g)).filter
              (fun r => r.objective = o)).map (fun r => r.status)) / 4
        ∧ c = ((df.filter (fun r => r.goal = g)).filter
              (fun r => r.objective = o)).length)
    ∧ create_radar_data (load_data [⟨1, 1, "A", 4⟩, ⟨1, 1, "B", 0⟩]) 1
        = [(1, 1/2, 2)] := by
  constructor
  · intro df g o p c hmem
    simp only [create_radar_data, List.mem_map] at hmem
    obtain ⟨obj, hobj, heq⟩ := hmem
    simp only [Prod.mk.injEq] at heq
    obtain ⟨h1, h2, h3⟩ := heq
    subst h1
    exact ⟨h2.symm, h3.symm⟩
  · simp [create_radar_data, radarObjectives, load_data, status_mapping,
      uniqueFirst, meanQ]
    norm_num

/-- Witness for C3: the first conjunct applied at the example table,
goal 1, entry (1, 1/2, 2). -/
theorem c3_radar_per_objective_witness :
    (1 : ℚ) / 2
      = meanQ ((((load_data [⟨1, 1, "A", 4⟩, ⟨1, 1, "B", 0⟩]).filter
            (fun r => r.goal = 1)).filter (fun r => r.objective = 1)).map
              (fun r => r.status)) / 4
    ∧ 2 = (((load_data [⟨1, 1, "A", 4⟩, ⟨1, 1, "B", 0⟩]).filter
            (fun r => r.goal = 1)).filter (fun r => r.objective = 1)).length := by
  have h := c3_radar_per_objective
  exact h.1 (load_data [⟨1, 1, "A", 4⟩, ⟨1, 1, "B", 0⟩]) 1 1 (1 / 2) 2
    (h.2 ▸ List.mem_singleton.mpr rfl)

/-- C10: In the radar builder, the objective axes appear in order of
first occurrence among the goal's records (the order produced by taking
the distinct objectives in row order), and not in sorted order: on a
concrete table whose first-occurrence order is [2, 1], the axes differ
from their ascending sort. -/
theorem c10_radar_axis_first_occurrence :
    (∀ (df : List Record) (g : Int),
      (create_radar_data df g).map (fun x => x.1)
        = distinctInRowOrder ((df.filter (fun r => r.goal = g)).map (fun r => r.objective)))
    ∧ (create_radar_data (load_data [⟨1, 2, "A", 4⟩, ⟨1, 1, "B", 0⟩]) 1).map (fun x => x.1)
        = [2, 1]
    ∧ (create_radar_data (load_data [⟨1, 2, "A", 4⟩, ⟨1, 1, "B", 0⟩]) 1).map (fun x => x.1)
        ≠ sortAsc ((create_radar_data (load_data [⟨1, 2, "A", 4⟩, ⟨1, 1, "B", 0⟩]) 1).map
            (fun x => x.1)) := by
  have hmapfst : ∀ (df : List Record) (g : Int),
      (create_radar_data df g).map (fun x => x.1) = radarObjectives df g := by
    intro df g
    simp only [create_radar_data, List.map_map]
    exact List.map_id _
  have haxes : (create_radar_data (load_data [⟨1, 2, "A", 4⟩, ⟨1, 1, "B", 0⟩]) 1).map
      (fun x => x.1) = [2, 1] := by
    rw [hmapfst]
    simp [radarObjectives, load_data, status_mapping, uniqueFirst]
  refine ⟨?_, haxes, ?_⟩
  · intro df g
    rw [hmapfst, distinctInRowOrder_eq_uniqueFirst, radarObjectives]
  · rw [haxes]
    decide

/-- C9: The selectable goals of the Goal Details view are exactly the
distinct goal values of the table, sorted strictly ascending; every
selectable goal matches at least one record, and each of its radar
objectives matches at least one record, so the per-goal and
per-objective means divide by a non-zero group size. -/
theorem c9_goal_options_safe (df : List Record) :
    List.Pairwise (fun a b : Int => a < b) (goalOptions df)
    ∧ (∀ g : Int, g ∈ goalOptions df ↔ ∃ r ∈ df, r.goal = g)
    ∧ (∀ g : Int, g ∈ goalOptions df →
        df.filter (fun r => r.goal = g) ≠ []
        ∧ ∀ o ∈ radarObjectives df g,
            (df.filter (fun r => r.goal = g)).filter (fun r => r.objective = o) ≠ []) := by
  refine ⟨?_, ?_, ?_⟩
  · have hpe : List.Pairwise (fun a b : Int => decide (a ≤ b) = true)
        (insSort (fun a b : Int => decide (a ≤ b)) (uniqueFirst (df.map (fun r => r.goal)))) := by
      apply pairwise_insSort
      · intro x y
        rcases le_total x y with h | h
        · left; simpa using h
        · right; simpa using h
      · intro x y z h1 h2
        simp only [decide_eq_true_eq] at h1 h2 ⊢
        omega
    have hnd : (goalOptions df).Nodup := by
      rw [goalOptions, sortAsc]
      exact ((insSort_perm _ _).nodup_iff).mpr (uniqueFirst_nodup _)
    have hcomb := hpe.and hnd
    refine hcomb.imp ?_
    intro a b hab
    have h1 : a ≤ b := by simpa using hab.1
    exact lt_of_le_of_ne h1 hab.2
  · intro g
    rw [goalOptions, sortAsc, mem_insSort, mem_uniqueFirst]
    simp [List.mem_map]
  · intro g hgmem
    rw [goalOptions, sortAsc, mem_insSort, mem_uniqueFirst] at hgmem
    obtain ⟨r0, hr0, hg⟩ := List.mem_map.mp hgmem
    constructor
    · exact List.ne_nil_of_mem (List.mem_filter.mpr ⟨hr0, by simp [hg]⟩)
    · intro o ho
      rw [radarObjectives, mem_uniqueFirst] at ho
      obtain ⟨r1, hr1, ho1⟩ := List.mem_map.mp ho
      exact List.ne_nil_of_mem (List.mem_filter.mpr ⟨hr1, by simp [ho1]⟩)

/-- Witness for C9: on a concrete one-row table, goal 1 is selectable
and its record set is non-empty. -/
theorem c9_goal_options_safe_witness :
    (load_data [⟨1, 1, "A", 4⟩]).filter (fun r => r.goal = 1) ≠ [] := by
  have h := c9_goal_options_safe (load_data [⟨1, 1, "A", 4⟩])
  have hmem : (1 : Int) ∈ goalOptions (load_data [⟨1, 1, "A", 4⟩]) :=
    (h.2.1 1).mpr ⟨⟨1, 1, "A", 4, some "Completed"⟩, by decide, rfl⟩
  exact (h.2.2 1 hmem).1

/-- Counterexample to C4 as stated: on a table holding two records with
the same (objective, okr) key (1, "A"), the goal-detail table is not
strictly ascending by (objective, okr) — consecutive rows carry equal
keys. -/
theorem c4_counterexample :
    ¬ List.Pairwise (fun x y => keyLT (rowKey x) (rowKey y))
        (goal_details (load_data [⟨1, 1, "A", 0⟩, ⟨1, 1, "A", 4⟩]) 1) := by
  decide

/-- C4 (amended): For every table and goal, the goal-detail table is a
permutation of the records filtered to that goal (projected to
(objective, okr, status_label)), it is sorted non-decreasingly by the
key (objective, okr), the sort is stable (rows with any fixed key keep
their original relative order), and it is strictly ascending whenever
the filtered records carry pairwise-distinct keys. -/
theorem c4_details_sorted_stable (df : List Record) (g : Int) :
    List.Perm (goal_details df g)
      ((df.filter (fun r => r.goal = g)).map (fun r => (r.objective, r.okr, r.status_label)))
    ∧ List.Pairwise (fun x y => keyLE (rowKey x) (rowKey y) = true) (goal_details df g)
    ∧ (∀ k : Int × String,
        (goal_details df g).filter (fun x => decide (rowKey x = k))
          = ((df.filter (fun r => r.goal = g)).map
              (fun r => (r.objective, r.okr, r.status_label))).filter
                (fun x => decide (rowKey x = k)))
    ∧ (List.Nodup (((df.filter (fun r => r.goal = g)).map
          (fun r => (r.objective, r.okr, r.status_label))).map rowKey)
        → List.Pairwise (fun x y => keyLT (rowKey x) (rowKey y)) (goal_details df g)) := by
  have hsorted : List.Pairwise (fun x y => keyLE (rowKey x) (rowKey y) = true)
      (goal_details df g) := by
    apply pairwise_insSort
    · intro x y
      exact keyLE_total (rowKey x) (rowKey y)
    · intro x y z h1 h2
      exact keyLE_trans _ _ _ h1 h2
  refine ⟨insSort_perm _ _, hsorted, ?_, ?_⟩
  · intro k
    exact insSort_filter_key rowKey keyLE keyLE_refl _ k
  · intro hnd
    have hperm : List.Perm (goal_details df g)
        ((df.filter (fun r => r.goal = g)).map (fun r => (r.objective, r.okr, r.status_label))) :=
      insSort_perm _ _
    have hndout : List.Nodup ((goal_details df g).map rowKey) :=
      ((hperm.map rowKey).nodup_iff).mpr hnd
    have hne : List.Pairwise (fun x y => rowKey x ≠ rowKey y) (goal_details df g) :=
      List.pairwise_map.mp hndout
    refine (hsorted.and hne).imp ?_
    intro a b hab
    exact keyLE_ne_lt (rowKey a) (rowKey b) hab.1 hab.2

/-- Witness for C4 (amended): on a table with distinct keys the detail
table is strictly ascending. -/
theorem c4_details_sorted_stable_witness :
    List.Pairwise (fun x y => keyLT (rowKey x) (rowKey y))
      (goal_details (load_data [⟨1, 1, "B", 0⟩, ⟨1, 1, "A", 4⟩]) 1) :=
  (c4_details_sorted_stable (load_data [⟨1, 1, "B", 0⟩, ⟨1, 1, "A", 4⟩]) 1).2.2.2 (by decide)
